import Mathlib

/-!
# Verification of the domain-guardrails blocklist builder

Shallow embedding of `scripts/build_adguard_ipv6_blocklist.py`.

Python strings are modelled as `List Char` (`Str`).  Each Python function of
the pipeline is translated into a Lean function of the same name.  The two
regular expressions are translated into decidable predicates whose structure
is derived conjunct-by-conjunct from the regex source; the derivation is
documented at each definition.
-/

namespace DomainGuardrails

/-- A Python string, modelled as its list of characters. -/
abbrev Str := List Char

/-- The ASCII whitespace characters stripped by Python `str.strip()` and
matched by the regex class `\s` (space, tab, newline, vertical tab,
form feed, carriage return). -/
def isPySpace (c : Char) : Bool :=
  c == ' ' || c == '\t' || c == '\n' || c == '\x0b' || c == '\x0c' || c == '\r'

/-- Python `str.strip()`: remove whitespace from both ends. -/
def pyStrip (s : Str) : Str :=
  ((s.dropWhile isPySpace).reverse.dropWhile isPySpace).reverse

/-- Python `str.rstrip(".")`: remove **all** trailing `'.'` characters. -/
def rstripDot (s : Str) : Str :=
  (s.reverse.dropWhile (fun c => c == '.')).reverse

/-- ASCII letter, both cases: the class `[a-z]` under `re.IGNORECASE`
(code points 65-90 and 97-122). -/
def isAsciiLetter (c : Char) : Bool :=
  (97 ≤ c.toNat && c.toNat ≤ 122) || (65 ≤ c.toNat && c.toNat ≤ 90)

/-- ASCII digit `[0-9]` (code points 48-57). -/
def isAsciiDigit (c : Char) : Bool :=
  48 ≤ c.toNat && c.toNat ≤ 57

/-- The class `[a-z0-9-]` under `re.IGNORECASE`: letter, digit or hyphen. -/
def isLdhChar (c : Char) : Bool :=
  isAsciiLetter c || isAsciiDigit c || c == '-'

/-- The class `[A-Za-z0-9.-]` of the AdGuard rule regex. -/
def isHostChar (c : Char) : Bool :=
  isLdhChar c || c == '.'

/--
`normalize_domain` from the source:

```
d = domain.strip().lower()
if d.startswith("https://"): d = d[len("https://"):]
elif d.startswith("http://"): d = d[len("http://"):]
if d.startswith("*."): d = d[2:]
if "/" in d: d = d.split("/", 1)[0].strip()
d = d.rstrip(".")
```
-/
def normalize_domain (domain : Str) : Str :=
  let d := (pyStrip domain).map Char.toLower
  let d := if List.isPrefixOf ("https://".toList) d then d.drop 8
           else if List.isPrefixOf ("http://".toList) d then d.drop 7
           else d
  let d := if List.isPrefixOf ['*', '.'] d then d.drop 2 else d
  let d := if d.contains '/' then pyStrip (d.takeWhile (fun c => c != '/')) else d
  rstripDot d

/-- Split a string at every `'.'`; the segments are the dot-separated labels.
`splitDots "a.b" = ["a", "b"]`, `splitDots "" = [""]`, `splitDots "a." = ["a", ""]`.
Used to state the semantics of the regex fragments
`(?: [a-z0-9-]{1,63} \.)+ [a-z]{2,63}` and `[A-Za-z0-9.-]+ \. [A-Za-z]{2,}`:
since their character classes exclude `'.'`, a backtracking match decomposes
the subject exactly into its dot-separated segments. -/
def splitDots : Str → List Str
  | [] => [[]]
  | c :: cs =>
    if c = '.' then [] :: splitDots cs
    else
      match splitDots cs with
      | s :: ss => (c :: s) :: ss
      | [] => [[c]]

/-- Right inverse of `splitDots`: rejoin segments with `'.'`. -/
def joinDots : List Str → Str
  | [] => []
  | [s] => s
  | s :: ss => s ++ '.' :: joinDots ss

/-- One iteration of `(?:[a-z0-9-]{1,63}\.)+` (IGNORECASE): a non-final label. -/
def labelOkNonFinal (l : Str) : Bool :=
  decide (1 ≤ l.length) && decide (l.length ≤ 63) && l.all isLdhChar

/-- The final `[a-z]{2,63}` (IGNORECASE): the TLD label of the validation regex. -/
def labelOkFinal (l : Str) : Bool :=
  decide (2 ≤ l.length) && decide (l.length ≤ 63) && l.all isAsciiLetter

/-- Semantics of the regex body `(?:[a-z0-9-]{1,63}\.)+[a-z]{2,63}` on the
dot-separated segments of the subject: at least two segments, every
non-final segment a 1-63 character LDH label, the final segment a 2-63
character alphabetic label.  (The character classes exclude `'.'`, so the
`+`-iterations consume exactly the segments before the final dot and the
tail matches exactly the final segment.) -/
def regexLabelsOk (segs : List Str) : Bool :=
  decide (2 ≤ segs.length) &&
  segs.dropLast.all labelOkNonFinal &&
  (match segs.getLast? with
   | some f => labelOkFinal f
   | none => false)

/--
Semantics of `DOMAIN_VALIDATION_REGEX.match(s)`:

```
re.compile(r"^(?=.{1,253}$)(?!-)(?:[a-z0-9-]{1,63}\.)+[a-z]{2,63}$", re.IGNORECASE)
```

* `$` matches at the end of the subject, or just before one final newline, so
  the match (both the lookahead and the body, whose classes all exclude
  `'\n'`) covers `core`, the subject with one trailing `'\n'` removed.
* `(?=.{1,253}$)`: `.` excludes `'\n'`, so `core` has no newline and has
  length 1-253.
* `(?!-)`: the subject does not start with `'-'`.
* body: see `regexLabelsOk`.
-/
def domainRegexMatches (s : Str) : Bool :=
  let core := if s.getLast? = some '\n' then s.dropLast else s
  !(core.contains '\n') &&
  decide (1 ≤ core.length) && decide (core.length ≤ 253) &&
  !(s.head? == some '-') &&
  regexLabelsOk (splitDots core)

/-- Python substring containment `pat in s`: `pat` occurs contiguously in `s`. -/
def hasSubstr (pat : Str) : Str → Bool
  | [] => pat.isEmpty
  | c :: cs => List.isPrefixOf pat (c :: cs) || hasSubstr pat cs

/--
`is_valid_domain` from the source:

```
if "xn--" in domain: return True
return DOMAIN_VALIDATION_REGEX.match(domain) is not None
```
-/
def is_valid_domain (domain : Str) : Bool :=
  if hasSubstr ("xn--".toList) domain then true
  else domainRegexMatches domain

/-- The capture group `[A-Za-z0-9.-]+\.[A-Za-z]{2,}` of the AdGuard rule
regex, applied to the text between `||` and the first `^` (the classes
exclude `'^'`, so the group must end exactly at the first `'^'`):
all characters in `[A-Za-z0-9.-]`, at least two dot-separated segments,
the final segment alphabetic of length at least 2 (no upper bound here),
and the part before the final dot nonempty (`+` needs one character). -/
def ruleDomainGroupOk (dom : Str) : Bool :=
  dom.all isHostChar &&
  (let segs := splitDots dom
   decide (2 ≤ segs.length) &&
   (decide (3 ≤ segs.length) ||
    (match segs.head? with
     | some h => !h.isEmpty
     | none => false)) &&
   (match segs.getLast? with
    | some f => decide (2 ≤ f.length) && f.all isAsciiLetter
    | none => false))

/-- Semantics of the tail `\s*(?:\$.*)?\s*$` of the AdGuard rule regex,
applied to the text after the first `^`: after optional whitespace either
nothing remains, or a `'$'` follows and then (since `.` excludes `'\n'`
while `\s` includes it) everything from the first newline on, if any,
must be whitespace. -/
def ruleTailOk (t : Str) : Bool :=
  match t.dropWhile isPySpace with
  | [] => true
  | c :: r => c == '$' && (r.dropWhile (fun x => x != '\n')).all isPySpace

/--
Semantics of `ADGUARD_RULE_DOMAIN_REGEX.match(s)`, returning the capture
group `domain` on success:

```
re.compile(r"^\s*\|\|(?P<domain>[A-Za-z0-9.-]+\.[A-Za-z]{2,})\^\s*(?:\$.*)?\s*$")
```
-/
def adguardRuleDomainMatch (s : Str) : Option Str :=
  let s1 := s.dropWhile isPySpace
  if List.isPrefixOf ['|', '|'] s1 then
    let rest := s1.drop 2
    let dom := rest.takeWhile (fun c => c != '^')
    match rest.dropWhile (fun c => c != '^') with
    | '^' :: t => if ruleDomainGroupOk dom && ruleTailOk t then some dom else none
    | _ => none
  else none

/--
`extract_domain_from_line` from the source:

```
stripped = line.strip()
if not stripped: return None
if stripped.startswith("#"): return None
if "#" in stripped:
    stripped = stripped.split("#", 1)[0].strip()
    if not stripped: return None
match = ADGUARD_RULE_DOMAIN_REGEX.match(stripped)
if match: return normalize_domain(match.group("domain"))
return normalize_domain(stripped)
```
-/
def extract_domain_from_line (line : Str) : Option Str :=
  let stripped := pyStrip line
  if stripped.isEmpty then none
  else if stripped.head? == some '#' then none
  else
    let stripped2 :=
      if stripped.contains '#' then pyStrip (stripped.takeWhile (fun c => c != '#'))
      else stripped
    if stripped2.isEmpty then none
    else
      match adguardRuleDomainMatch stripped2 with
      | some d => some (normalize_domain d)
      | none => some (normalize_domain stripped2)

/-- `build_adguard_rule` from the source:
`f"||{{domain}}^$dnstype=AAAA,dnsrewrite=NOERROR"` (braces shown doubled). -/
def build_adguard_rule (domain : Str) : Str :=
  "||".toList ++ domain ++ "^$dnstype=AAAA,dnsrewrite=NOERROR".toList

/-- The fixed text of a compiled rule after the `^`. -/
def ruleTailStr : Str := "$dnstype=AAAA,dnsrewrite=NOERROR".toList

/-- One warning of `read_domains_from_files`: the file (by index in the
source-file list), the 1-based line number, and the offending
post-normalization candidate. -/
structure Warning where
  fileIdx : Nat
  lineNo : Nat
  candidate : Str
deriving DecidableEq

/-- The per-line step of `read_domains_from_files`: `nl` is the pair
(1-based line number, raw line).  `None` from extraction is skipped;
an invalid candidate appends a warning; a valid one is added to the set. -/
def stepLine (fi : Nat) (acc : Finset Str × List Warning) (nl : Nat × Str) :
    Finset Str × List Warning :=
  match extract_domain_from_line nl.2 with
  | none => acc
  | some d =>
    if is_valid_domain d then (insert d acc.1, acc.2)
    else (acc.1, acc.2 ++ [⟨fi, nl.1, d⟩])

/-- The inner loop of `read_domains_from_files` over
`enumerate(text.splitlines(), start=1)`. -/
def processLines (fi : Nat) : Nat → (Finset Str × List Warning) → List Str →
    Finset Str × List Warning
  | _, acc, [] => acc
  | n, acc, l :: ls => processLines fi (n + 1) (stepLine fi acc (n, l)) ls

/-- `read_domains_from_files` from the source: the input is the list of
source files, each a list of lines (`splitlines` applied upstream).
Returns the set of unique valid domains and the warning list in
encounter order. -/
def read_domains_from_files (files : List (List Str)) : Finset Str × List Warning :=
  files.enum.foldl (fun acc fl => processLines fl.1 1 acc fl.2) (∅, [])

/-- Python string `<=`: lexicographic comparison by code point, as used by
`sorted()`. -/
def strLe : Str → Str → Bool
  | [], _ => true
  | _ :: _, [] => false
  | a :: as, b :: bs => if a < b then true else if a = b then strLe as bs else false

theorem strLe_total (a b : Str) : strLe a b = true ∨ strLe b a = true := by
  induction a generalizing b with
  | nil => exact Or.inl rfl
  | cons x xs ih =>
    cases b with
    | nil => exact Or.inr rfl
    | cons y ys =>
      rcases lt_trichotomy x y with h | h | h
      · left; simp [strLe, h]
      · subst h
        rcases ih ys with h2 | h2
        · left; simp [strLe, h2]
        · right; simp [strLe, h2]
      · right; simp [strLe, h]

theorem strLe_antisymm {a b : Str} (h1 : strLe a b = true) (h2 : strLe b a = true) :
    a = b := by
  induction a generalizing b with
  | nil =>
    cases b with
    | nil => rfl
    | cons y ys => simp [strLe] at h2
  | cons x xs ih =>
    cases b with
    | nil => simp [strLe] at h1
    | cons y ys =>
      rcases lt_trichotomy x y with h | h | h
      · rw [strLe, if_neg (lt_asymm h), if_neg (ne_of_gt h)] at h2
        exact absurd h2 Bool.false_ne_true
      · subst h
        rw [strLe, if_neg (lt_irrefl x), if_pos rfl] at h1 h2
        rw [ih h1 h2]
      · rw [strLe, if_neg (lt_asymm h), if_neg (ne_of_lt h).symm] at h1
        exact absurd h1 Bool.false_ne_true

theorem strLe_trans {a b c : Str} (h1 : strLe a b = true) (h2 : strLe b c = true) :
    strLe a c = true := by
  induction a generalizing b c with
  | nil => rfl
  | cons x xs ih =>
    cases b with
    | nil => simp [strLe] at h1
    | cons y ys =>
      cases c with
      | nil => simp [strLe] at h2
      | cons z zs =>
        rw [strLe] at h1 h2 ⊢
        split at h1
        next hxy =>
          split at h2
          next hyz => rw [if_pos (lt_trans hxy hyz)]
          next hyz =>
            split at h2
            next heq => subst heq; rw [if_pos hxy]
            next => exact absurd h2 Bool.false_ne_true
        next hxy =>
          split at h1
          next heq =>
            subst heq
            split at h2
            next hyz => rw [if_pos hyz]
            next =>
              split at h2
              next heq2 => subst heq2; rw [if_neg hxy, if_pos rfl]; exact ih h1 h2
              next => exact absurd h2 Bool.false_ne_true
          next => exact absurd h1 Bool.false_ne_true

/-- The ordering relation used for `sorted(domains)`. -/
def strOrd (a b : Str) : Prop := strLe a b = true

instance : DecidableRel strOrd := fun a b => instDecidableEqBool (strLe a b) true

instance : IsTotal Str strOrd := ⟨strLe_total⟩

instance : IsAntisymm Str strOrd := ⟨fun _ _ => strLe_antisymm⟩

instance : IsTrans Str strOrd := ⟨fun _ _ _ => strLe_trans⟩

/-- The effect of one input line on the domain set alone (warnings and line
numbers do not influence it). -/
def insertStep (s : Finset Str) (line : Str) : Finset Str :=
  match extract_domain_from_line line with
  | none => s
  | some d => if is_valid_domain d then insert d s else s

/-- `sorted(domains)` in `main`: lexicographic (code-point) order. -/
def sortedDomains (files : List (List Str)) : List Str :=
  ((read_domains_from_files files).1).sort strOrd

/-- The header block built in `write_output` (the `!`-comment lines);
`generated_at` models the timestamp, `sourceIds` the relative source paths. -/
def write_output_header (generated_at : Str) (sourceIds : List Str) : List Str :=
  ["! Title: Domain Guardrails - IPv6 (AAAA) Suppression List".toList,
   "! Description: Generated from ./source/*.txt (combined, deduped, sorted)".toList,
   "! Generated: ".toList ++ generated_at,
   "!".toList,
   "! Inputs:".toList] ++
  sourceIds.map (fun p => "!   - ".toList ++ p) ++
  ["!".toList,
   "! Format: ||domain^$dnstype=AAAA,dnsrewrite=NOERROR".toList,
   "!".toList]

/-- The file content written by `write_output`:
`"\n".join(header + rules) + "\n"`. -/
def write_output_content (generated_at : Str) (sourceIds : List Str)
    (rules : List Str) : Str :=
  List.intercalate ['\n'] (write_output_header generated_at sourceIds ++ rules) ++ ['\n']

/-- The output artifacts a successful `main` run writes: it calls
`write_output` exactly once, on the rules compiled from the sorted
domain list. -/
def main_artifacts (generated_at : Str) (sourceIds : List Str)
    (files : List (List Str)) : List Str :=
  let domains_sorted := sortedDomains files
  let rules_sorted := domains_sorted.map build_adguard_rule
  [write_output_content generated_at sourceIds rules_sorted]

/-- A non-final label as §4.2 of the spec words it: 1-63 characters from
`[a-z0-9-]` (case-insensitively) and not starting with `'-'`. -/
def specLabelOkNonFinal (l : Str) : Bool :=
  decide (1 ≤ l.length) && decide (l.length ≤ 63) && l.all isLdhChar &&
  !(l.head? == some '-')

/-- The label sequence as the spec words it: one or more labels, each
non-final label per `specLabelOkNonFinal`, the final label (TLD) two or
more alphabetic characters. -/
def specLabelsOk : List Str → Bool
  | [] => false
  | [f] => decide (2 ≤ f.length) && f.all isAsciiLetter
  | l :: rest => specLabelOkNonFinal l && specLabelsOk rest

/-- The reference grammar exactly as the claim states it from the spec:
overall length 1-253, one or more dot-separated labels, each non-final
label 1-63 characters from `[a-z0-9-]` not starting with `'-'`, the final
label 2 or more alphabetic characters, case-insensitive. -/
def specDomainGrammar (s : Str) : Bool :=
  decide (1 ≤ s.length) && decide (s.length ≤ 253) && specLabelsOk (splitDots s)

/-- The label sequence the code actually accepts: at least two labels,
non-final labels 1-63 LDH characters (leading `'-'` allowed), final label
2-63 alphabetic characters. -/
def amendedLabelsOk : List Str → Bool
  | [] => false
  | [_] => false
  | [l, f] => labelOkNonFinal l && labelOkFinal f
  | l :: rest => labelOkNonFinal l && amendedLabelsOk rest

/-- The amended reference grammar: overall length 1-253, **two** or more
dot-separated labels, each non-final label 1-63 characters from
`[a-z0-9-]`, the string not starting with `'-'` (only the first label is
dash-checked), the final label 2-**63** alphabetic characters. -/
def amendedDomainGrammar (s : Str) : Bool :=
  decide (1 ≤ s.length) && decide (s.length ≤ 253) &&
  !(s.head? == some '-') &&
  amendedLabelsOk (splitDots s)

/-- Lowercase host characters `[a-z0-9.-]`: the alphabet of canonical
domains produced by the grammar path of the validator. -/
def isCanonChar (c : Char) : Bool :=
  (97 ≤ c.toNat && c.toNat ≤ 122) || isAsciiDigit c || c == '-' || c == '.'

/-! ## General list helpers -/

theorem dropWhile_eq_self_of_forall {p : Char → Bool} {l : Str}
    (h : ∀ c ∈ l, p c = false) : l.dropWhile p = l := by
  cases l with
  | nil => rfl
  | cons a as => rw [List.dropWhile_cons, h a (List.mem_cons_self a as)]; rfl

theorem pyStrip_eq_self {l : Str} (h : ∀ c ∈ l, isPySpace c = false) :
    pyStrip l = l := by
  unfold pyStrip
  rw [dropWhile_eq_self_of_forall h,
    dropWhile_eq_self_of_forall (fun c hc => h c (List.mem_reverse.mp hc)),
    List.reverse_reverse]

theorem takeWhile_append_of_forall {p : Char → Bool} {l m : Str}
    (h : ∀ c ∈ l, p c = true) : (l ++ m).takeWhile p = l ++ m.takeWhile p := by
  induction l with
  | nil => rfl
  | cons a as ih =>
    rw [List.cons_append, List.takeWhile_cons, h a (List.mem_cons_self a as),
      ih (fun c hc => h c (List.mem_cons_of_mem a hc)), List.cons_append]
    simp

theorem dropWhile_append_of_forall {p : Char → Bool} {l m : Str}
    (h : ∀ c ∈ l, p c = true) : (l ++ m).dropWhile p = m.dropWhile p := by
  induction l with
  | nil => rfl
  | cons a as ih =>
    rw [List.cons_append, List.dropWhile_cons, h a (List.mem_cons_self a as)]
    exact ih (fun c hc => h c (List.mem_cons_of_mem a hc))

theorem head?_dropWhile_false {p : Char → Bool} {l : Str} {a : Char}
    (h : (l.dropWhile p).head? = some a) : p a = false := by
  induction l with
  | nil => simp at h
  | cons b bs ih =>
    rw [List.dropWhile_cons] at h
    by_cases hb : p b = true
    · rw [if_pos hb] at h; exact ih h
    · rw [if_neg hb] at h
      simp only [List.head?_cons, Option.some.injEq] at h
      subst h
      exact Bool.eq_false_iff.mpr hb

theorem isPrefixOf_eq_false_of_mem_not_mem {p l : Str} {c : Char}
    (hp : c ∈ p) (hl : c ∉ l) : List.isPrefixOf p l = false := by
  induction p generalizing l with
  | nil => simp at hp
  | cons a as ih =>
    cases l with
    | nil => rfl
    | cons b bs =>
      rw [List.isPrefixOf_cons₂]
      rcases List.mem_cons.mp hp with hc | hc
      · subst hc
        have : ¬(c == b) = true := by
          intro hcb
          exact hl (by rw [beq_iff_eq.mp hcb]; exact List.mem_cons_self b bs)
        simp [Bool.eq_false_iff.mpr this]
      · have := ih hc (fun hm => hl (List.mem_cons_of_mem b hm))
        simp [this]

theorem map_eq_self_of_forall {f : Char → Char} {l : Str}
    (h : ∀ c ∈ l, f c = c) : l.map f = l := by
  induction l with
  | nil => rfl
  | cons a as ih =>
    rw [List.map_cons, h a (List.mem_cons_self a as),
      ih (fun c hc => h c (List.mem_cons_of_mem a hc))]

theorem contains_eq_false_of_not_mem {l : Str} {a : Char} (h : a ∉ l) :
    l.contains a = false := by
  rw [Bool.eq_false_iff]
  intro hc
  exact h (List.elem_iff.mp hc)

/-! ## Character class helpers -/

theorem toLower_eq_self {c : Char} (h : ¬(65 ≤ c.toNat ∧ c.toNat ≤ 90)) :
    c.toLower = c := by
  unfold Char.toLower
  rw [if_neg]
  omega

theorem isCanonChar_cases {c : Char} (h : isCanonChar c = true) :
    (97 ≤ c.toNat ∧ c.toNat ≤ 122) ∨ (48 ≤ c.toNat ∧ c.toNat ≤ 57) ∨
    c = '-' ∨ c = '.' := by
  simp only [isCanonChar, isAsciiDigit, Bool.or_eq_true, Bool.and_eq_true,
    decide_eq_true_eq, beq_iff_eq] at h
  tauto

theorem isCanonChar_toLower {c : Char} (h : isCanonChar c = true) :
    c.toLower = c := by
  apply toLower_eq_self
  rcases isCanonChar_cases h with h1 | h1 | h1 | h1
  · omega
  · omega
  · subst h1; decide
  · subst h1; decide

theorem isCanonChar_not_pySpace {c : Char} (h : isCanonChar c = true) :
    isPySpace c = false := by
  rw [Bool.eq_false_iff]
  intro hs
  simp only [isPySpace, Bool.or_eq_true, beq_iff_eq] at hs
  rcases hs with ((((h2 | h2) | h2) | h2) | h2) | h2 <;> subst h2 <;> revert h <;> decide

theorem isCanonChar_hostChar {c : Char} (h : isCanonChar c = true) :
    isHostChar c = true := by
  rcases isCanonChar_cases h with h1 | h1 | h1 | h1
  · simp only [isHostChar, isLdhChar, isAsciiLetter, Bool.or_eq_true,
      Bool.and_eq_true, decide_eq_true_eq]
    exact Or.inl (Or.inl (Or.inl (Or.inl ⟨h1.1, h1.2⟩)))
  · simp only [isHostChar, isLdhChar, isAsciiDigit, Bool.or_eq_true,
      Bool.and_eq_true, decide_eq_true_eq]
    exact Or.inl (Or.inl (Or.inr ⟨h1.1, h1.2⟩))
  · subst h1; decide
  · subst h1; decide

theorem isCanonChar_ne {c x : Char} (h : isCanonChar c = true)
    (hx : isCanonChar x = false) : c ≠ x := by
  intro he
  subst he
  rw [h] at hx
  exact Bool.noConfusion hx

theorem isCanonChar_not_mem {l : Str} {x : Char}
    (h : ∀ c ∈ l, isCanonChar c = true) (hx : isCanonChar x = false) : x ∉ l := by
  intro hm
  exact isCanonChar_ne (h x hm) hx rfl

/-! ## splitDots / joinDots helpers -/

theorem splitDots_ne_nil (s : Str) : splitDots s ≠ [] := by
  cases s with
  | nil => simp [splitDots]
  | cons c cs =>
    rw [splitDots]
    by_cases h : c = '.'
    · simp [h]
    · rw [if_neg h]
      cases hs : splitDots cs with
      | nil => simp
      | cons a as => simp

theorem joinDots_single (s : Str) : joinDots [s] = s := rfl

theorem joinDots_cons₂ (s t : Str) (ts : List Str) :
    joinDots (s :: t :: ts) = s ++ '.' :: joinDots (t :: ts) := rfl

theorem joinDots_splitDots (s : Str) : joinDots (splitDots s) = s := by
  induction s with
  | nil => rfl
  | cons c cs ih =>
    rw [splitDots]
    by_cases h : c = '.'
    · rw [if_pos h]
      subst h
      cases hs : splitDots cs with
      | nil => exact absurd hs (splitDots_ne_nil cs)
      | cons a as =>
        rw [hs] at ih
        rw [joinDots_cons₂, List.nil_append, ih]
    · rw [if_neg h]
      cases hs : splitDots cs with
      | nil => exact absurd hs (splitDots_ne_nil cs)
      | cons a as =>
        rw [hs] at ih
        cases as with
        | nil =>
          rw [joinDots_single] at ih
          rw [joinDots_single, ih]
        | cons b bs =>
          rw [joinDots_cons₂] at ih
          rw [joinDots_cons₂, List.cons_append, ih]

theorem joinDots_ne_nil {ss : List Str} {f : Str} (h : ss.getLast? = some f)
    (hf : f ≠ []) : joinDots ss ≠ [] := by
  cases ss with
  | nil => simp at h
  | cons a as =>
    cases as with
    | nil =>
      simp only [List.getLast?_singleton, Option.some.injEq] at h
      subst h
      rw [joinDots_single]
      exact hf
    | cons b bs =>
      rw [joinDots_cons₂]
      simp

theorem getLast?_joinDots {ss : List Str} {f : Str} (h : ss.getLast? = some f)
    (hf : f ≠ []) : (joinDots ss).getLast? = f.getLast? := by
  induction ss with
  | nil => simp at h
  | cons a as ih =>
    cases as with
    | nil =>
      simp only [List.getLast?_singleton, Option.some.injEq] at h
      subst h
      rw [joinDots_single]
    | cons b bs =>
      rw [List.getLast?_cons_cons] at h
      have hne := joinDots_ne_nil h hf
      have ihh := ih h
      rw [joinDots_cons₂]
      cases hj : joinDots (b :: bs) with
      | nil => exact absurd hj hne
      | cons x xs =>
        rw [hj] at ihh
        rw [List.getLast?_append_of_ne_nil _ (by simp)]
        rw [List.getLast?_cons_cons]
        exact ihh

/-! ## rstripDot helpers -/

theorem rstripDot_getLast?_ne (s : Str) :
    (rstripDot s).getLast? ≠ some '.' := by
  unfold rstripDot
  rw [List.getLast?_reverse]
  cases h : (s.reverse.dropWhile (fun c => c == '.')).head? with
  | none => simp
  | some a =>
    have hb := head?_dropWhile_false h
    simp only [ne_eq, Option.some.injEq]
    exact ne_of_beq_false hb

theorem rstripDot_eq_self {s : Str} {a : Char} (h : s.getLast? = some a)
    (ha : (a == '.') = false) : rstripDot s = s := by
  unfold rstripDot
  have hrev : s.reverse.head? = some a := by rw [List.head?_reverse, h]
  cases hr : s.reverse with
  | nil => rw [hr] at hrev; simp at hrev
  | cons b bs =>
    rw [hr] at hrev
    simp only [List.head?_cons, Option.some.injEq] at hrev
    subst hrev
    rw [List.dropWhile_cons, ha]
    simp only [Bool.false_eq_true, if_false]
    rw [← hr, List.reverse_reverse]

/-! ## Label-list equivalence -/

theorem amendedLabelsOk_eq (segs : List Str) :
    amendedLabelsOk segs = regexLabelsOk segs := by
  induction segs with
  | nil => rfl
  | cons l rest ih =>
    cases rest with
    | nil =>
      rw [amendedLabelsOk, regexLabelsOk]
      simp
    | cons f rest2 =>
      cases rest2 with
      | nil =>
        rw [amendedLabelsOk, regexLabelsOk]
        simp [Bool.and_assoc]
      | cons g rest3 =>
        have he : amendedLabelsOk (l :: f :: g :: rest3) =
            (labelOkNonFinal l && amendedLabelsOk (f :: g :: rest3)) := rfl
        rw [he, ih, regexLabelsOk, regexLabelsOk]
        have h1 : (2 ≤ (l :: f :: g :: rest3).length) := by
          simp only [List.length_cons]
          omega
        have h2 : (2 ≤ (f :: g :: rest3).length) := by
          simp only [List.length_cons]
          omega
        have h3 : (l :: f :: g :: rest3).dropLast = l :: (f :: g :: rest3).dropLast := by
          simp [List.dropLast]
        rw [List.getLast?_cons_cons, h3, List.all_cons]
        rw [decide_eq_true h1, decide_eq_true h2]
        cases labelOkNonFinal l <;> cases (f :: g :: rest3).dropLast.all labelOkNonFinal <;>
          cases (f :: g :: rest3).getLast? <;> simp

/-! ## Aggregation helpers -/

theorem stepLine_fst (fi : Nat) (acc : Finset Str × List Warning) (nl : Nat × Str) :
    (stepLine fi acc nl).1 = insertStep acc.1 nl.2 := by
  unfold stepLine insertStep
  cases extract_domain_from_line nl.2 with
  | none => rfl
  | some d =>
    by_cases h : is_valid_domain d = true
    · simp [h]
    · simp [Bool.eq_false_iff.mpr h]

theorem processLines_fst (fi : Nat) (ls : List Str) :
    ∀ (n : Nat) (acc : Finset Str × List Warning),
    (processLines fi n acc ls).1 = ls.foldl insertStep acc.1 := by
  induction ls with
  | nil => intro n acc; rfl
  | cons l ls ih =>
    intro n acc
    rw [processLines, ih, List.foldl_cons, stepLine_fst]

theorem read_domains_fst (files : List (List Str)) :
    (read_domains_from_files files).1 = files.flatten.foldl insertStep ∅ := by
  have key : ∀ (l : List (Nat × List Str)) (acc : Finset Str × List Warning),
      (l.foldl (fun a fl => processLines fl.1 1 a fl.2) acc).1 =
      ((l.map Prod.snd).flatten).foldl insertStep acc.1 := by
    intro l
    induction l with
    | nil => intro acc; rfl
    | cons fl t ih =>
      intro acc
      rw [List.foldl_cons, ih, List.map_cons, List.flatten_cons, List.foldl_append,
        processLines_fst]
  rw [read_domains_from_files, key, List.enum_map_snd]

instance : RightCommutative insertStep := by
  refine ⟨fun s a b => ?_⟩
  unfold insertStep
  cases extract_domain_from_line a with
  | none => rfl
  | some da =>
    cases extract_domain_from_line b with
    | none => rfl
    | some db =>
      by_cases ha : is_valid_domain da = true <;>
        by_cases hb : is_valid_domain db = true <;>
        simp [ha, hb, Finset.Insert.comm]

theorem foldl_insertStep_perm {l₁ l₂ : List Str} (h : l₁.Perm l₂) (s : Finset Str) :
    l₁.foldl insertStep s = l₂.foldl insertStep s :=
  h.foldl_eq s

theorem valid_of_mem_foldl (ls : List Str) :
    ∀ (s : Finset Str), (∀ x ∈ s, is_valid_domain x = true) →
    ∀ d ∈ ls.foldl insertStep s, is_valid_domain d = true := by
  induction ls with
  | nil => intro s hs d hd; exact hs d hd
  | cons a ls ih =>
    intro s hs d hd
    rw [List.foldl_cons] at hd
    refine ih (insertStep s a) ?_ d hd
    intro x hx
    rcases he : extract_domain_from_line a with _ | da
    · rw [insertStep, he] at hx; exact hs x hx
    · rw [insertStep, he] at hx
      by_cases hv : is_valid_domain da = true
      · simp only [hv, if_true] at hx
        rcases Finset.mem_insert.mp hx with hxa | hxs
        · subst hxa; exact hv
        · exact hs x hxs
      · simp only [hv, if_false] at hx
        exact hs x hx

/-! ## Round-trip helpers -/

theorem build_rule_eq (d : Str) :
    build_adguard_rule d = '|' :: '|' :: (d ++ '^' :: ruleTailStr) := rfl

theorem regex_facts {d : Str} (hC : ∀ c ∈ d, isCanonChar c = true)
    (hR : domainRegexMatches d = true) :
    2 ≤ (splitDots d).length ∧
    (splitDots d).dropLast.all labelOkNonFinal = true ∧
    ∃ f, (splitDots d).getLast? = some f ∧ labelOkFinal f = true := by
  have hne : d ≠ [] := by
    intro h
    rw [h] at hR
    revert hR
    decide
  have hcore : (if d.getLast? = some '\n' then d.dropLast else d) = d := by
    cases hl : d.getLast? with
    | none => rfl
    | some a =>
      rw [if_neg]
      intro hcontra
      have ha := hC a (List.mem_of_getLast?_eq_some hl)
      have : a = '\n' := Option.some.inj hcontra
      subst this
      revert ha
      decide
  rw [domainRegexMatches] at hR
  simp only [hcore, Bool.and_eq_true] at hR
  obtain ⟨⟨⟨⟨_, hlen1⟩, hlen253⟩, hdash⟩, hlab⟩ := hR
  rw [regexLabelsOk] at hlab
  rcases hgl : (splitDots d).getLast? with _ | f
  · rw [hgl] at hlab
    simp at hlab
  · rw [hgl] at hlab
    simp only [Bool.and_eq_true, decide_eq_true_eq] at hlab
    obtain ⟨⟨hlen2, hinit⟩, hfin⟩ := hlab
    exact ⟨hlen2, hinit, f, rfl, hfin⟩

theorem labelOkFinal_ne_nil {f : Str} (hf : labelOkFinal f = true) : f ≠ [] := by
  intro h
  subst h
  revert hf
  decide

theorem getLast?_of_regex {d : Str} (hC : ∀ c ∈ d, isCanonChar c = true)
    (hR : domainRegexMatches d = true) :
    ∃ a, d.getLast? = some a ∧ (a == '.') = false := by
  obtain ⟨_, _, f, hgl, hfin⟩ := regex_facts hC hR
  have hfne := labelOkFinal_ne_nil hfin
  have hjd := getLast?_joinDots hgl hfne
  rw [joinDots_splitDots] at hjd
  cases hfl : f.getLast? with
  | none => exact absurd (List.getLast?_eq_none_iff.mp hfl) hfne
  | some a =>
    refine ⟨a, by rw [hjd, hfl], ?_⟩
    have ha : isAsciiLetter a = true := by
      simp only [labelOkFinal, Bool.and_eq_true] at hfin
      exact List.all_eq_true.mp hfin.2 a (List.mem_of_getLast?_eq_some hfl)
    apply beq_eq_false_iff_ne.mpr
    intro he
    subst he
    revert ha
    decide

theorem normalize_canon_eq_self {d : Str} (hC : ∀ c ∈ d, isCanonChar c = true)
    (hR : domainRegexMatches d = true) : normalize_domain d = d := by
  have e1 : pyStrip d = d :=
    pyStrip_eq_self (fun c hc => isCanonChar_not_pySpace (hC c hc))
  have e2 : d.map Char.toLower = d :=
    map_eq_self_of_forall (fun c hc => isCanonChar_toLower (hC c hc))
  have e3 : List.isPrefixOf ("https://".toList) d = false :=
    isPrefixOf_eq_false_of_mem_not_mem (by decide : ':' ∈ "https://".toList)
      (isCanonChar_not_mem hC (by decide))
  have e4 : List.isPrefixOf ("http://".toList) d = false :=
    isPrefixOf_eq_false_of_mem_not_mem (by decide : ':' ∈ "http://".toList)
      (isCanonChar_not_mem hC (by decide))
  have e5 : List.isPrefixOf ['*', '.'] d = false :=
    isPrefixOf_eq_false_of_mem_not_mem (by decide : '*' ∈ ['*', '.'])
      (isCanonChar_not_mem hC (by decide))
  have e6 : d.contains '/' = false :=
    contains_eq_false_of_not_mem (isCanonChar_not_mem hC (by decide))
  obtain ⟨a, hga, hane⟩ := getLast?_of_regex hC hR
  have e7 : rstripDot d = d := rstripDot_eq_self hga hane
  rw [normalize_domain]
  simp only [e1, e2, e3, e4, e5, e6, e7, Bool.false_eq_true, if_false]

theorem rule_no_char {d : Str} (hC : ∀ c ∈ d, isCanonChar c = true) {x : Char}
    (hx : isCanonChar x = false) (hlit : x ∉ '|' :: '|' :: '^' :: ruleTailStr) :
    x ∉ build_adguard_rule d := by
  intro hm
  rw [build_rule_eq] at hm
  simp only [List.mem_cons, List.mem_append] at hm
  simp only [List.mem_cons] at hlit
  push_neg at hlit
  obtain ⟨hl1, hl2, hl3, hl4⟩ := hlit
  rcases hm with h | h | h | h | h
  · exact hl1 h
  · exact hl2 h
  · exact isCanonChar_not_mem hC hx h
  · exact hl3 h
  · exact hl4 h

theorem rule_all_not_pySpace {d : Str} (hC : ∀ c ∈ d, isCanonChar c = true) :
    ∀ c ∈ build_adguard_rule d, isPySpace c = false := by
  intro c hc
  rw [build_rule_eq] at hc
  simp only [List.mem_cons, List.mem_append] at hc
  have hT : ∀ x ∈ ruleTailStr, isPySpace x = false := by decide
  rcases hc with h | h | h | h | h
  · subst h; decide
  · subst h; decide
  · exact isCanonChar_not_pySpace (hC c h)
  · subst h; decide
  · exact hT c h

theorem ruleGroup_of_regex {d : Str} (hC : ∀ c ∈ d, isCanonChar c = true)
    (hR : domainRegexMatches d = true) : ruleDomainGroupOk d = true := by
  obtain ⟨hlen2, hinit, f, hgl, hfin⟩ := regex_facts hC hR
  rw [ruleDomainGroupOk]
  simp only [Bool.and_eq_true]
  refine ⟨?_, ⟨⟨?_, ?_⟩, ?_⟩⟩
  · exact List.all_eq_true.mpr (fun c hc => isCanonChar_hostChar (hC c hc))
  · exact decide_eq_true hlen2
  · by_cases h3 : 3 ≤ (splitDots d).length
    · simp [decide_eq_true h3]
    · have hl2 : (splitDots d).length = 2 := by omega
      obtain ⟨a, b, hab⟩ := List.length_eq_two.mp hl2
      rw [hab]
      rw [hab] at hinit
      have : labelOkNonFinal a = true := by
        simp only [List.dropLast, List.all_cons, Bool.and_eq_true] at hinit
        exact hinit.1
      simp only [labelOkNonFinal, Bool.and_eq_true, decide_eq_true_eq] at this
      have hane : a ≠ [] := by
        intro h
        rw [h] at this
        simp at this
      simp only [List.head?_cons, Bool.or_eq_true]
      right
      simp [hane]
  · rw [hgl]
    simp only [labelOkFinal, Bool.and_eq_true, decide_eq_true_eq] at hfin
    simp only [Bool.and_eq_true, decide_eq_true_eq]
    exact ⟨hfin.1.1, hfin.2⟩

theorem rule_match_eq {d : Str} (hC : ∀ c ∈ d, isCanonChar c = true)
    (hR : domainRegexMatches d = true) :
    adguardRuleDomainMatch (build_adguard_rule d) = some d := by
  have hne : ∀ c ∈ d, (c != '^') = true := by
    intro c hc
    simp only [bne_iff_ne, ne_eq]
    exact isCanonChar_ne (hC c hc) (by decide)
  rw [build_rule_eq, adguardRuleDomainMatch]
  have h1 : List.dropWhile isPySpace ('|' :: '|' :: (d ++ '^' :: ruleTailStr)) =
      '|' :: '|' :: (d ++ '^' :: ruleTailStr) := by
    rw [List.dropWhile_cons]
    simp only [show isPySpace '|' = false by decide, Bool.false_eq_true, if_false]
  rw [h1]
  have h2 : List.isPrefixOf ['|', '|'] ('|' :: '|' :: (d ++ '^' :: ruleTailStr)) = true := by
    simp [List.isPrefixOf]
  rw [if_pos h2]
  have h3 : ('|' :: '|' :: (d ++ '^' :: ruleTailStr)).drop 2 = d ++ '^' :: ruleTailStr := rfl
  rw [h3]
  have h4 : (d ++ '^' :: ruleTailStr).takeWhile (fun c => c != '^') = d := by
    rw [takeWhile_append_of_forall hne, List.takeWhile_cons]
    simp
  have h5 : (d ++ '^' :: ruleTailStr).dropWhile (fun c => c != '^') = '^' :: ruleTailStr := by
    rw [dropWhile_append_of_forall hne, List.dropWhile_cons]
    simp
  have h6 : ruleTailOk ruleTailStr = true := by decide
  simp only [h4, h5, ruleGroup_of_regex hC hR, h6, Bool.and_self, if_true]

theorem roundtrip_single {d : Str} (hC : ∀ c ∈ d, isCanonChar c = true)
    (hR : domainRegexMatches d = true) :
    extract_domain_from_line (build_adguard_rule d) = some d := by
  have hstrip : pyStrip (build_adguard_rule d) = build_adguard_rule d :=
    pyStrip_eq_self (rule_all_not_pySpace hC)
  have hempty : (build_adguard_rule d).isEmpty = false := by
    rw [build_rule_eq]
    rfl
  have hhead : (build_adguard_rule d).head? = some '|' := by
    rw [build_rule_eq]
    rfl
  have hhash : (build_adguard_rule d).contains '#' = false :=
    contains_eq_false_of_not_mem (rule_no_char hC (by decide) (by decide))
  rw [extract_domain_from_line]
  simp only [hstrip, hempty, hhead, hhash, Bool.false_eq_true, if_false,
    show (some '|' == some '#') = false by decide, rule_match_eq hC hR,
    normalize_canon_eq_self hC hR]

/-! # Claim theorems -/

/-- Counterexample to claim C1: the candidate `a.-b.com` contains no `xn--`,
the validator accepts it, but the reference grammar of the claim rejects it
(its non-final label `-b` starts with `'-'`; the validation regex checks a
leading dash only at the start of the whole string). -/
theorem c1_counterexample :
    hasSubstr ("xn--".toList) ("a.-b.com".toList) = false ∧
    is_valid_domain ("a.-b.com".toList) = true ∧
    specDomainGrammar ("a.-b.com".toList) = false :=
  ⟨by decide, by decide, by decide⟩

/-- Claim C1 (amended): for every candidate that does not contain `xn--` and
contains no newline, `is_valid_domain` accepts it iff it has length at most
253, at least **two** dot-separated labels, every non-final label 1-63
characters from `[a-z0-9-]` case-insensitively, the string does not start
with `'-'` (only the first label is dash-checked), and the final label is
2-**63** alphabetic characters. -/
theorem c1_validator_iff_amended_grammar (s : Str)
    (hx : hasSubstr ("xn--".toList) s = false) (hn : '\n' ∉ s) :
    is_valid_domain s = amendedDomainGrammar s := by
  rw [is_valid_domain]
  simp only [hx, Bool.false_eq_true, if_false]
  have hcore : (if s.getLast? = some '\n' then s.dropLast else s) = s := by
    cases hl : s.getLast? with
    | none => rfl
    | some a =>
      rw [if_neg]
      intro hcontra
      have ha := List.mem_of_getLast?_eq_some hl
      rw [Option.some.inj hcontra] at ha
      exact hn ha
  rw [domainRegexMatches]
  simp only [hcore, contains_eq_false_of_not_mem hn, Bool.not_false, Bool.true_and]
  rw [amendedDomainGrammar, amendedLabelsOk_eq]

/-- Witness for the amended claim C1 at the candidate `example.com`. -/
theorem c1_witness :
    hasSubstr ("xn--".toList) ("example.com".toList) = false ∧
    '\n' ∉ ("example.com".toList) ∧
    is_valid_domain ("example.com".toList) = amendedDomainGrammar ("example.com".toList) :=
  ⟨by decide, by decide, c1_validator_iff_amended_grammar _ (by decide) (by decide)⟩

/-- Counterexample to claim C2: the validator accepts `xn--p1ai` (via the
`xn--` shortcut), but compiling it to a rule and re-extracting yields the
whole lowercased rule line, not the original domain. -/
theorem c2_counterexample :
    is_valid_domain ("xn--p1ai".toList) = true ∧
    ["xn--p1ai".toList].map (fun d => extract_domain_from_line (build_adguard_rule d)) =
      [some ("||xn--p1ai^$dnstype=aaaa,dnsrewrite=noerror".toList)] ∧
    ["xn--p1ai".toList].map (fun d => extract_domain_from_line (build_adguard_rule d)) ≠
      ["xn--p1ai".toList].map some :=
  ⟨by decide, by decide, by decide⟩

/-- Claim C2 (amended): for every list of canonical grammar-path domains —
strings over the lowercase host alphabet `[a-z0-9.-]` that match the
validation regex — compiling each domain to a filter rule and re-extracting
a candidate from each rule line reproduces the original list exactly.
(Domains accepted only through the `xn--` shortcut need not round-trip.) -/
theorem c2_roundtrip (ds : List Str)
    (h : ∀ d ∈ ds, d.all isCanonChar = true ∧ domainRegexMatches d = true) :
    ds.map (fun d => extract_domain_from_line (build_adguard_rule d)) = ds.map some := by
  apply List.map_congr_left
  intro d hd
  obtain ⟨h1, h2⟩ := h d hd
  exact roundtrip_single (List.all_eq_true.mp h1) h2

/-- Witness for the amended claim C2 on the list `[example.com, a.org]`. -/
theorem c2_witness :
    (∀ d ∈ ["example.com".toList, "a.org".toList],
      List.all d isCanonChar = true ∧ domainRegexMatches d = true) ∧
    ["example.com".toList, "a.org".toList].map
        (fun d => extract_domain_from_line (build_adguard_rule d)) =
      ["example.com".toList, "a.org".toList].map some :=
  ⟨by decide, c2_roundtrip _ (by decide)⟩

/-- Counterexample to claim C3: a successful run renders exactly one
artifact, not two, and no rendered artifact is a `#`-comment-headed master
list. -/
theorem c3_counterexample :
    (main_artifacts ("2024-01-01T00:00:00Z".toList) ["source/list.txt".toList]
        [["example.com".toList]]).length = 1 ∧
    (main_artifacts ("2024-01-01T00:00:00Z".toList) ["source/list.txt".toList]
        [["example.com".toList]]).all (fun a => !(a.head? == some '#')) = true :=
  ⟨rfl, by decide⟩

/-- Claim C3 (amended): a successful run renders exactly **one** output
artifact from the build result — the filter artifact: the `!`-comment header
block followed by the compiled rules of the sorted canonical domain list,
one per line, joined by newlines with a trailing newline.  Every header line
starts with `'!'`; no `#`-headed master-list artifact is produced. -/
theorem c3_single_artifact (ts : Str) (ids : List Str) (files : List (List Str)) :
    main_artifacts ts ids files =
      [List.intercalate ['\n']
        (write_output_header ts ids ++ (sortedDomains files).map build_adguard_rule) ++
        ['\n']] ∧
    (main_artifacts ts ids files).length = 1 ∧
    (write_output_header ts ids).all (fun l => l.head? == some '!') = true := by
  refine ⟨rfl, rfl, ?_⟩
  apply List.all_eq_true.mpr
  intro l hl
  rw [write_output_header] at hl
  rcases List.mem_append.mp hl with h | h
  · rcases List.mem_append.mp h with h | h
    · simp only [List.mem_cons, List.not_mem_nil, or_false] at h
      rcases h with h | h | h | h | h <;> subst h <;> rfl
    · obtain ⟨p, _, hp⟩ := List.mem_map.mp h
      subst hp
      rfl
  · simp only [List.mem_cons, List.not_mem_nil, or_false] at h
    rcases h with h | h | h <;> subst h <;> rfl

/-- Witness for the amended claim C3 at a concrete timestamp, source list and
input file. -/
theorem c3_witness :
    (main_artifacts ("ts".toList) ["source/a.txt".toList] [["example.com".toList]]).length = 1 :=
  (c3_single_artifact ("ts".toList) ["source/a.txt".toList] [["example.com".toList]]).2.1

/-- Counterexample to claim C4: on the line `*.`, normalization produces the
empty string and the extractor returns it (not `nil`); the aggregator then
records a warning for it instead of skipping the line silently. -/
theorem c4_counterexample :
    extract_domain_from_line ("*.".toList) = some [] ∧
    read_domains_from_files [["*.".toList]] = (∅, [⟨0, 1, []⟩]) :=
  ⟨by decide, by decide⟩

/-- Claim C4 (amended): for every input line whose normalization ends with an
empty final string, the extractor returns the empty-string candidate rather
than `nil`, and the aggregation step records a warning for it (the empty
candidate fails validation); only blank, comment-only, and comment-emptied
lines are skipped silently. -/
theorem c4_empty_candidate_warns (fi n : Nat) (acc : Finset Str × List Warning)
    (line : Str) (h : extract_domain_from_line line = some []) :
    stepLine fi acc (n, line) = (acc.1, acc.2 ++ [⟨fi, n, []⟩]) := by
  simp only [stepLine, h, show is_valid_domain [] = false by decide,
    Bool.false_eq_true, if_false]

/-- Witness for the amended claim C4 at the line `*.`. -/
theorem c4_witness :
    extract_domain_from_line ("*.".toList) = some [] ∧
    stepLine 0 (∅, []) (1, "*.".toList) = ((∅ : Finset Str), [⟨0, 1, []⟩]) :=
  ⟨by decide, c4_empty_candidate_warns 0 1 (∅, []) ("*.".toList) (by decide)⟩

/-- Counterexample to claim C5: normalizing `example.com..` yields
`example.com`, not `example.com.` — the code strips **all** trailing dots,
not exactly one. -/
theorem c5_counterexample :
    normalize_domain ("example.com..".toList) = "example.com".toList ∧
    normalize_domain ("example.com..".toList) ≠ "example.com.".toList :=
  ⟨by decide, by decide⟩

/-- Claim C5 (amended): normalization strips **every** trailing dot: for
every input string the normalized result never ends in a dot. -/
theorem c5_strips_all_trailing_dots (s : Str) :
    (normalize_domain s).getLast? ≠ some '.' :=
  rstripDot_getLast?_ne _

/-- Witness for the amended claim C5 at the input `example.com..`. -/
theorem c5_witness : (normalize_domain ("example.com..".toList)).getLast? ≠ some '.' :=
  c5_strips_all_trailing_dots _

/-- Claim C6: every candidate containing the substring `xn--` is accepted by
the validator unconditionally. -/
theorem c6_xn_accepted (s : Str) (h : hasSubstr ("xn--".toList) s = true) :
    is_valid_domain s = true := by
  rw [is_valid_domain, if_pos h]

/-- Witness for claim C6 at the candidate `-xn--!!.bad..` (ill-shaped in
every other respect). -/
theorem c6_witness :
    hasSubstr ("xn--".toList) ("-xn--!!.bad..".toList) = true ∧
    is_valid_domain ("-xn--!!.bad..".toList) = true :=
  ⟨by decide, c6_xn_accepted _ (by decide)⟩

/-- Claim C7: permuting the input lines within and across sources (any two
source collections whose concatenated line sequences are permutations of
each other) leaves the sorted canonical domain list and the compiled rule
list unchanged. -/
theorem c7_permutation_invariance (files1 files2 : List (List Str))
    (h : files1.flatten.Perm files2.flatten) :
    sortedDomains files1 = sortedDomains files2 ∧
    (sortedDomains files1).map build_adguard_rule =
      (sortedDomains files2).map build_adguard_rule := by
  have hset : (read_domains_from_files files1).1 = (read_domains_from_files files2).1 := by
    rw [read_domains_fst, read_domains_fst]
    exact foldl_insertStep_perm h ∅
  have hs : sortedDomains files1 = sortedDomains files2 := by
    rw [sortedDomains, sortedDomains, hset]
  exact ⟨hs, by rw [hs]⟩

/-- Witness for claim C7: two lines permuted across two different source
layouts. -/
theorem c7_witness :
    ([["b.com".toList, "a.com".toList]] : List (List Str)).flatten.Perm
      ([["a.com".toList], ["b.com".toList]] : List (List Str)).flatten ∧
    sortedDomains [["b.com".toList, "a.com".toList]] =
      sortedDomains [["a.com".toList], ["b.com".toList]] :=
  ⟨by decide,
    (c7_permutation_invariance [["b.com".toList, "a.com".toList]]
      [["a.com".toList], ["b.com".toList]] (by decide)).1⟩

/-- Claim C8: rule compilation is a pure, order-preserving, one-to-one map:
the compiled list has the same length, and the rule at each position is the
literal `||`, the domain at that position, and the literal
`^$dnstype=AAAA,dnsrewrite=NOERROR`, concatenated. -/
theorem c8_compile_pointwise (domains : List Str) :
    (domains.map build_adguard_rule).length = domains.length ∧
    ∀ i, (h : i < domains.length) →
      (domains.map build_adguard_rule)[i]? =
        some ("||".toList ++ domains[i] ++ "^$dnstype=AAAA,dnsrewrite=NOERROR".toList) := by
  refine ⟨List.length_map _ _, ?_⟩
  intro i h
  rw [List.getElem?_map, List.getElem?_eq_getElem h]
  rfl

/-- Witness for claim C8 on the list `[a.com]` at position 0. -/
theorem c8_witness :
    (["a.com".toList].map build_adguard_rule).length = ["a.com".toList].length ∧
    (["a.com".toList].map build_adguard_rule)[0]? =
      some ("||".toList ++ "a.com".toList ++ "^$dnstype=AAAA,dnsrewrite=NOERROR".toList) :=
  ⟨(c8_compile_pointwise _).1, (c8_compile_pointwise _).2 0 (by decide)⟩

/-- Claim C9: every member of the canonical domain set built by aggregation
satisfies the validator — it matches the domain grammar or contains `xn--`. -/
theorem c9_set_invariant (files : List (List Str)) (d : Str)
    (h : d ∈ (read_domains_from_files files).1) : is_valid_domain d = true := by
  rw [read_domains_fst] at h
  exact valid_of_mem_foldl _ ∅ (fun x hx => absurd hx (Finset.not_mem_empty x)) d h

/-- Witness for claim C9 at a one-file, one-line input. -/
theorem c9_witness :
    "example.com".toList ∈ (read_domains_from_files [["example.com".toList]]).1 ∧
    is_valid_domain ("example.com".toList) = true :=
  ⟨by decide,
    c9_set_invariant [["example.com".toList]] ("example.com".toList) (by decide)⟩

/-- Claim C10: the rule line `||example.xn--p1ai^$dnstype=aaaa` does not
match the AdGuard rule regex (its final label is not purely alphabetic), so
it falls through to the plain-domain path, and the entire rule line —
delimiters included — is accepted by the validator (it contains `xn--`) and
inserted into the canonical domain set. -/
theorem c10_rule_line_falls_through :
    adguardRuleDomainMatch ("||example.xn--p1ai^$dnstype=aaaa".toList) = none ∧
    extract_domain_from_line ("||example.xn--p1ai^$dnstype=aaaa".toList) =
      some ("||example.xn--p1ai^$dnstype=aaaa".toList) ∧
    is_valid_domain ("||example.xn--p1ai^$dnstype=aaaa".toList) = true ∧
    ("||example.xn--p1ai^$dnstype=aaaa".toList) ∈
      (read_domains_from_files [["||example.xn--p1ai^$dnstype=aaaa".toList]]).1 :=
  ⟨by decide, by decide, by decide, by decide⟩

end DomainGuardrails
